import Mathlib

/-!
Verification of the chiplab backend simulation core.

The source keeps a collection of rectangular blocks, each with a position,
extent, a dynamic load and an optional temperature, in a document store.
A periodic tick reads a snapshot of the collection, computes every block's
next temperature from its load and the snapshot temperatures of its
geometric neighbors, and writes back only the temperatures that moved by
more than the threshold.  Socket handlers apply merge-upserts, deletes and
a batched clear against the same store.

Numbers are modelled as exact rationals.  A block's `temperature` field is
`Option ℚ`: the store may lack the field.  The JavaScript read idiom
`block.temperature || 20` yields the ambient default both when the field
is absent and when it holds the falsy value `0`; `readTemp` captures that.
-/

namespace ChipLab

/-- A stored block record as read by the simulation tick: document id plus
the fields the tick uses.  `temperature` is optional in storage. -/
structure Block where
  id : String
  x : ℚ
  y : ℚ
  width : ℚ
  height : ℚ
  dynamicLoad : ℚ
  temperature : Option ℚ
  deriving DecidableEq, Repr

/-- The value every read site obtains for a block's temperature:
`block.temperature || 20` in the source, which falls back to ambient `20`
when the field is absent and also when it holds the falsy value `0`. -/
def readTemp (b : Block) : ℚ :=
  match b.temperature with
  | none => 20
  | some t => if t = 0 then 20 else t

/-- Neighbor test from the tick's inner loop: on each axis the absolute
difference of centers is strictly below the sum of half-extents plus a
margin of 10. -/
def isNeighbor (block other : Block) : Bool :=
  decide (|block.x + block.width / 2 - (other.x + other.width / 2)|
            < block.width / 2 + other.width / 2 + 10)
    && decide (|block.y + block.height / 2 - (other.y + other.height / 2)|
            < block.height / 2 + other.height / 2 + 10)

/-- One iteration of the neighbor-accumulation loop body: skip the block
itself (same id), otherwise add the neighbor's read temperature to the
running sum and bump the count when the neighbor test passes. -/
def neighborStep (block : Block) (acc : ℚ × ℕ) (other : Block) : ℚ × ℕ :=
  if block.id = other.id then acc
  else if isNeighbor block other then (acc.1 + readTemp other, acc.2 + 1)
  else acc

/-- The neighbor loop of the tick: total neighbor temperature and neighbor
count accumulated over the snapshot. -/
def neighborStats (blocks : List Block) (block : Block) : ℚ × ℕ :=
  blocks.foldl (neighborStep block) (0, 0)

/-- The per-block physics of one tick: generated heat from the load, a
60/40 blend with the average neighbor temperature when there are
neighbors, then cooling toward ambient by factor 0.9. -/
def computeNewTemp (blocks : List Block) (block : Block) : ℚ :=
  let generatedTemp : ℚ := block.dynamicLoad / 100 * 10 + 20
  let stats := neighborStats blocks block
  let newTemp : ℚ :=
    if 0 < stats.2 then generatedTemp * 0.6 + stats.1 / (stats.2 : ℚ) * 0.4
    else generatedTemp
  20 + (newTemp - 20) * 0.9

/-- The write-threshold test of the tick's write loop:
`Math.abs((block.temperature || 20) - newTemperature) > 0.1`. -/
def shouldWrite (block : Block) (newTemperature : ℚ) : Bool :=
  decide ((0.1 : ℚ) < |readTemp block - newTemperature|)

/-- Insertion-ordered map update, as a JavaScript `Map.set`: overwrite the
value in place when the key is present, append otherwise. -/
def mSet (m : List (String × ℚ)) (k : String) (v : ℚ) : List (String × ℚ) :=
  if m.any (fun p => p.1 = k) then m.map (fun p => if p.1 = k then (k, v) else p)
  else m ++ [(k, v)]

/-- Map lookup, as a JavaScript `Map.get`. -/
def mGet (m : List (String × ℚ)) (k : String) : Option ℚ :=
  (m.find? (fun p => p.1 = k)).map Prod.snd

/-- The tick's compute loop: fills the `newTemps` map with each block's
computed next temperature, keyed by id, in snapshot order. -/
def newTempsOf (blocks : List Block) : List (String × ℚ) :=
  blocks.foldl (fun m block => mSet m block.id (computeNewTemp blocks block)) []

/-- A store write of `transaction.update(doc(id), \x7b temperature \x7d)`:
set the temperature field of every record with the given id. -/
def updateTemp (store : List Block) (id : String) (t : ℚ) : List Block :=
  store.map (fun b => if b.id = id then { b with temperature := some t } else b)

/-- One iteration of the tick's write loop: look the block's id up in the
`newTemps` map and write the temperature when it moved beyond the
threshold; otherwise leave the store untouched. -/
def writeStep (newTemps : List (String × ℚ)) (store : List Block) (block : Block) :
    List Block :=
  match mGet newTemps block.id with
  | some newTemperature =>
      if shouldWrite block newTemperature then updateTemp store block.id newTemperature
      else store
  | none => store

/-- One simulation tick over the store: no-op on an empty snapshot,
otherwise the compute loop followed by the write loop, both over the same
snapshot. -/
def runTick (store : List Block) : List Block :=
  if store.isEmpty then store
  else store.foldl (writeStep (newTempsOf store)) store

/-- The spec's simultaneous per-block update: next temperature computed
from the snapshot alone, written when it moved beyond the threshold. -/
def tickBlockSpec (snapshot : List Block) (b : Block) : Block :=
  let t := computeNewTemp snapshot b
  if shouldWrite b t then { b with temperature := some t } else b

/-- The spec's whole-collection map `T(t+1) = F(T(t))`: every block updated
simultaneously from the snapshot. -/
def tickSpecMap (snapshot : List Block) : List Block :=
  snapshot.map (tickBlockSpec snapshot)

/-- The fields of a block a tick must never change: everything except
`temperature`. -/
def projFrame (b : Block) : String × ℚ × ℚ × ℚ × ℚ × ℚ :=
  (b.id, b.x, b.y, b.width, b.height, b.dynamicLoad)

/-- Helper describing what the write loop does to a single stored record,
given the processing list: the record ends up with the temperature chosen
for the first processed block carrying its id, when that one crossed the
threshold. -/
def writeResult (newTemps : List (String × ℚ)) (l : List Block) (r : Block) : Block :=
  match l.find? (fun b => decide (b.id = r.id)) with
  | some b =>
      match mGet newTemps b.id with
      | some t => if shouldWrite b t then { r with temperature := some t } else r
      | none => r
  | none => r

/-- A stored document as the mutation gateway sees it: a partial block,
every field optional (a payload carries only the fields it sets). -/
structure BlockDoc where
  x : Option ℚ
  y : Option ℚ
  width : Option ℚ
  height : Option ℚ
  dynamicLoad : Option ℚ
  temperature : Option ℚ
  deriving DecidableEq, Repr

/-- Modelled from the spec: per-field behavior of the store's merge write
(the `set` with merge option the block-updated handler issues, implemented
by the external document store) — a field present in the payload is
written, a field absent from the payload keeps its prior value. -/
def mergeField (old payload : Option ℚ) : Option ℚ :=
  match payload with
  | some v => some v
  | none => old

/-- Modelled from the spec: the store's merge write applied to a whole
document — every field merged independently by `mergeField`. -/
def mergeDoc (old payload : BlockDoc) : BlockDoc :=
  { x := mergeField old.x payload.x
    y := mergeField old.y payload.y
    width := mergeField old.width payload.width
    height := mergeField old.height payload.height
    dynamicLoad := mergeField old.dynamicLoad payload.dynamicLoad
    temperature := mergeField old.temperature payload.temperature }

/-- Read of a single document from the store by id. -/
def docLookup (store : List (String × BlockDoc)) (id : String) : Option BlockDoc :=
  (store.find? (fun p => decide (p.1 = id))).map Prod.snd

/-- The block-updated handler: a merge upsert of the payload onto the
record with the payload's id, creating the record when it is absent. -/
def upsertMerge (store : List (String × BlockDoc)) (id : String) (payload : BlockDoc) :
    List (String × BlockDoc) :=
  match docLookup store id with
  | some _ => store.map (fun p => if p.1 = id then (p.1, mergeDoc p.2 payload) else p)
  | none => store ++ [(id, payload)]

/-- Deletion of one document by id, as one entry of the clear-canvas
batch. -/
def deleteDoc (store : List (String × BlockDoc)) (id : String) : List (String × BlockDoc) :=
  store.filter (fun p => decide (p.1 ≠ id))

/-- Modelled from the spec: the clear-canvas handler reads a snapshot of
the collection, fills one batch with a delete for every document of the
snapshot, and the store commits the batch atomically; with no concurrent
edit the snapshot is the store itself. -/
def clearCanvas (store : List (String × BlockDoc)) : List (String × BlockDoc) :=
  (store.map Prod.fst).foldl deleteDoc store

/-- Fixture: an isolated block under load 50 already at the isolated fixed
point. -/
def w1B : Block := ⟨"w1", 0, 0, 10, 10, 50, some (49 / 2)⟩

/-- Fixture: a loaded block for the tick-level witnesses. -/
def w2A : Block := ⟨"a", 0, 0, 10, 10, 50, none⟩

/-- Fixture: a warm block overlapping `w2A`. -/
def w2B : Block := ⟨"b", 5, 5, 10, 10, 0, some 30⟩

/-- Fixture: a two-block store with distinct ids. -/
def wStore2 : List Block := [w2A, w2B]

/-- Fixture: a block with the temperature field absent. -/
def w6B : Block := ⟨"w6", 0, 0, 10, 10, 0, none⟩

/-- Fixture: a stored document carrying a simulation-computed
temperature. -/
def wOld7 : BlockDoc := ⟨some 0, some 0, some 10, some 10, some 50, some 30⟩

/-- Fixture: a move payload carrying only a position, no temperature. -/
def wPay7 : BlockDoc := ⟨some 5, some 7, none, none, none, none⟩

/-- Fixture: a one-document store for the upsert witness. -/
def wStore7 : List (String × BlockDoc) := [("r", wOld7)]

/-! ## Helper lemmas -/

lemma foldl_neighborStep_const (b : Block) :
    ∀ (l : List Block) (acc : ℚ × ℕ),
      (∀ other ∈ l, b.id = other.id ∨ isNeighbor b other = false) →
      l.foldl (neighborStep b) acc = acc := by
  intro l
  induction l with
  | nil => intro acc _; rfl
  | cons x t ih =>
      intro acc h
      have hx := h x (List.mem_cons_self x t)
      have hstep : neighborStep b acc x = acc := by
        unfold neighborStep
        rcases hx with h1 | h2
        · simp [h1]
        · simp [h2]
      rw [List.foldl_cons, hstep]
      exact ih acc fun o ho => h o (List.mem_cons_of_mem _ ho)

lemma neighborStats_isolated (blocks : List Block) (b : Block)
    (hiso : ∀ other ∈ blocks, b.id = other.id ∨ isNeighbor b other = false) :
    neighborStats blocks b = (0, 0) :=
  foldl_neighborStep_const b blocks (0, 0) hiso

lemma computeNewTemp_isolated (blocks : List Block) (b : Block)
    (hiso : ∀ other ∈ blocks, b.id = other.id ∨ isNeighbor b other = false) :
    computeNewTemp blocks b = 20 + 0.9 * (b.dynamicLoad / 100 * 10 + 20 - 20) := by
  unfold computeNewTemp
  rw [neighborStats_isolated blocks b hiso]
  norm_num
  ring

/-! ## Claims -/

/-- Claim C9: the neighbor relation is symmetric — for all blocks `a`,
`b`, `isNeighbor a b = isNeighbor b a`. -/
theorem claim_C9 (a b : Block) : isNeighbor a b = isNeighbor b a := by
  unfold isNeighbor
  rw [abs_sub_comm (a.x + a.width / 2) (b.x + b.width / 2),
    abs_sub_comm (a.y + a.height / 2) (b.y + b.height / 2),
    add_comm (a.width / 2) (b.width / 2), add_comm (a.height / 2) (b.height / 2)]

/-- Claim C3: for blocks with distinct ids, `isNeighbor a b` holds
exactly when on both axes the center distance is strictly below the sum
of half-extents plus the margin 10, centers taken as top-left position
plus half extent. -/
theorem claim_C3 (a b : Block) (_h : a.id ≠ b.id) :
    isNeighbor a b = true ↔
      |a.x + a.width / 2 - (b.x + b.width / 2)| < a.width / 2 + b.width / 2 + 10 ∧
      |a.y + a.height / 2 - (b.y + b.height / 2)| < a.height / 2 + b.height / 2 + 10 := by
  simp [isNeighbor]

/-- Claim C3 witness: two overlapping blocks with distinct ids satisfy
both strict center-distance bounds and are judged neighbors. -/
theorem claim_C3_witness :
    isNeighbor w2A w2B = true ↔
      |w2A.x + w2A.width / 2 - (w2B.x + w2B.width / 2)|
          < w2A.width / 2 + w2B.width / 2 + 10 ∧
      |w2A.y + w2A.height / 2 - (w2B.y + w2B.height / 2)|
          < w2A.height / 2 + w2B.height / 2 + 10 :=
  claim_C3 w2A w2B (by decide)

/-- Claim C1: a block with no neighbors in the snapshot and load `L`
gets computed temperature exactly `20 + 0.9 * ((L/100*10+20) - 20)` by
the tick, and once its read temperature equals that value the tick's
write test declines to touch it, so the value persists on every
subsequent isolated, load-constant tick. -/
theorem claim_C1 (blocks : List Block) (b : Block) (L : ℚ)
    (hload : b.dynamicLoad = L)
    (hiso : ∀ other ∈ blocks, b.id = other.id ∨ isNeighbor b other = false) :
    computeNewTemp blocks b = 20 + 0.9 * (L / 100 * 10 + 20 - 20) ∧
    (readTemp b = 20 + 0.9 * (L / 100 * 10 + 20 - 20) →
      shouldWrite b (computeNewTemp blocks b) = false) := by
  have hval : computeNewTemp blocks b = 20 + 0.9 * (L / 100 * 10 + 20 - 20) := by
    rw [computeNewTemp_isolated blocks b hiso, hload]
  refine ⟨hval, fun hr => ?_⟩
  unfold shouldWrite
  rw [hval, ← hr]
  simp only [sub_self, abs_zero, decide_eq_false_iff_not, not_lt]
  norm_num

/-- Claim C1 witness: a single isolated block with load 50 computes
exactly `24.5`, and at temperature `24.5` the write test is off. -/
theorem claim_C1_witness :
    computeNewTemp [w1B] w1B = 20 + 0.9 * ((50 : ℚ) / 100 * 10 + 20 - 20) ∧
    shouldWrite w1B (computeNewTemp [w1B] w1B) = false :=
  ⟨(claim_C1 [w1B] w1B 50 rfl (by with_unfolding_all decide)).1,
    (claim_C1 [w1B] w1B 50 rfl (by with_unfolding_all decide)).2
      (by with_unfolding_all decide)⟩

lemma projFrame_updateTemp (s : List Block) (id : String) (t : ℚ) :
    (updateTemp s id t).map projFrame = s.map projFrame := by
  unfold updateTemp
  rw [List.map_map]
  apply List.map_congr_left
  intro b _
  by_cases hb : b.id = id
  · simp [Function.comp, hb, projFrame]
  · simp [Function.comp, hb]

lemma projFrame_writeStep (nt : List (String × ℚ)) (s : List Block) (x : Block) :
    (writeStep nt s x).map projFrame = s.map projFrame := by
  unfold writeStep
  cases hget : mGet nt x.id with
  | none => rfl
  | some v =>
      by_cases hw : shouldWrite x v
      · simp only [hw, if_true]
        exact projFrame_updateTemp s x.id v
      · simp [hw]

lemma foldl_writeStep_frame (nt : List (String × ℚ)) :
    ∀ (l s : List Block), (l.foldl (writeStep nt) s).map projFrame = s.map projFrame := by
  intro l
  induction l with
  | nil => intro s; rfl
  | cons x t ih =>
      intro s
      rw [List.foldl_cons, ih (writeStep nt s x), projFrame_writeStep]

/-- Claim C5: a tick only ever writes `temperature`: every other field of
every record, the record count, and the sequence of ids are unchanged by
`runTick`. -/
theorem claim_C5 (store : List Block) :
    (runTick store).map projFrame = store.map projFrame ∧
    (runTick store).map Block.id = store.map Block.id ∧
    (runTick store).length = store.length := by
  have h : (runTick store).map projFrame = store.map projFrame := by
    unfold runTick
    split
    · rfl
    · exact foldl_writeStep_frame _ store store
  have hid : (runTick store).map Block.id = store.map Block.id := by
    have h2 := congrArg (List.map fun p : String × ℚ × ℚ × ℚ × ℚ × ℚ => p.1) h
    rw [List.map_map, List.map_map] at h2
    exact h2
  have hlen : (runTick store).length = store.length := by
    have h3 := congrArg List.length h
    rw [List.length_map, List.length_map] at h3
    exact h3
  exact ⟨h, hid, hlen⟩

/-- Claim C6: a block whose temperature field is absent reads as exactly
ambient 20 everywhere — it contributes `20` to a neighbor's accumulated
average, the write-threshold comparison for it is made against `20`, and
when it is isolated with zero load the tick computes exactly `20` and
leaves the record untouched. -/
theorem claim_C6 (b : Block) (hb : b.temperature = none) :
    readTemp b = 20 ∧
    (∀ (c : Block) (acc : ℚ × ℕ), c.id ≠ b.id → isNeighbor c b = true →
      neighborStep c acc b = (acc.1 + 20, acc.2 + 1)) ∧
    (∀ t : ℚ, shouldWrite b t = decide ((0.1 : ℚ) < |20 - t|)) ∧
    (∀ blocks : List Block, b.dynamicLoad = 0 →
      (∀ other ∈ blocks, b.id = other.id ∨ isNeighbor b other = false) →
      computeNewTemp blocks b = 20 ∧ shouldWrite b (computeNewTemp blocks b) = false) := by
  have hr : readTemp b = 20 := by unfold readTemp; rw [hb]
  refine ⟨hr, ?_, ?_, ?_⟩
  · intro c acc hne hnb
    unfold neighborStep
    rw [if_neg (fun hid => hne hid), if_pos hnb, hr]
  · intro t
    unfold shouldWrite
    rw [hr]
  · intro blocks hload hiso
    have hval : computeNewTemp blocks b = 20 := by
      rw [computeNewTemp_isolated blocks b hiso, hload]
      norm_num
    refine ⟨hval, ?_⟩
    unfold shouldWrite
    rw [hval, hr]
    simp only [sub_self, abs_zero, decide_eq_false_iff_not, not_lt]
    norm_num

/-- Claim C6 witness: the absent-temperature fixture reads as 20, its
write test compares against 20, and isolated at zero load it computes 20
and is not rewritten. -/
theorem claim_C6_witness :
    readTemp w6B = 20 ∧
    shouldWrite w6B 25 = decide ((0.1 : ℚ) < |20 - 25|) ∧
    computeNewTemp [w6B] w6B = 20 ∧
    shouldWrite w6B (computeNewTemp [w6B] w6B) = false :=
  ⟨(claim_C6 w6B rfl).1, (claim_C6 w6B rfl).2.2.1 25,
    ((claim_C6 w6B rfl).2.2.2 [w6B] rfl (by with_unfolding_all decide)).1,
    ((claim_C6 w6B rfl).2.2.2 [w6B] rfl (by with_unfolding_all decide)).2⟩

lemma computeNewTemp_congr_mid (l₁ l₂ : List Block) (c x₀ x₁ : Block)
    (hstep : ∀ acc, neighborStep c acc x₀ = neighborStep c acc x₁) :
    computeNewTemp (l₁ ++ x₀ :: l₂) c = computeNewTemp (l₁ ++ x₁ :: l₂) c := by
  have hstats : neighborStats (l₁ ++ x₀ :: l₂) c = neighborStats (l₁ ++ x₁ :: l₂) c := by
    unfold neighborStats
    rw [List.foldl_append, List.foldl_append, List.foldl_cons, List.foldl_cons, hstep]
  unfold computeNewTemp
  rw [hstats]

/-- Claim C10: a stored temperature of exactly `0` behaves like an absent
temperature at every read site of the simulation: the two variants read
identically, make identical neighbor-loop contributions, give identical
write-threshold decisions, and yield identical computed temperatures for
every block of any snapshot containing either variant. -/
theorem claim_C10 (b : Block) :
    readTemp { b with temperature := some 0 } = readTemp { b with temperature := none } ∧
    (∀ (c : Block) (acc : ℚ × ℕ),
      neighborStep c acc { b with temperature := some 0 }
        = neighborStep c acc { b with temperature := none }) ∧
    (∀ t : ℚ, shouldWrite { b with temperature := some 0 } t
        = shouldWrite { b with temperature := none } t) ∧
    (∀ (l₁ l₂ : List Block) (c : Block),
      computeNewTemp (l₁ ++ { b with temperature := some 0 } :: l₂) c
        = computeNewTemp (l₁ ++ { b with temperature := none } :: l₂) c) := by
  have hr : readTemp { b with temperature := some 0 }
      = readTemp { b with temperature := none } := by
    simp [readTemp]
  have hstep : ∀ (c : Block) (acc : ℚ × ℕ),
      neighborStep c acc { b with temperature := some 0 }
        = neighborStep c acc { b with temperature := none } := by
    intro c acc
    unfold neighborStep
    rw [hr]
    rfl
  refine ⟨hr, hstep, ?_, ?_⟩
  · intro t
    unfold shouldWrite
    rw [hr]
  · intro l₁ l₂ c
    exact computeNewTemp_congr_mid l₁ l₂ c _ _ (hstep c)

lemma mSet_fresh (m : List (String × ℚ)) (k : String) (v : ℚ)
    (h : ∀ p ∈ m, p.1 ≠ k) : mSet m k v = m ++ [(k, v)] := by
  unfold mSet
  rw [if_neg]
  simp only [List.any_eq_true, decide_eq_true_eq, not_exists]
  intro p
  simp only [not_and]
  exact fun hp => h p hp

lemma foldl_mSet_eq (f : Block → ℚ) :
    ∀ (l : List Block) (m : List (String × ℚ)),
      (l.map Block.id).Nodup →
      (∀ p ∈ m, ∀ b ∈ l, p.1 ≠ b.id) →
      l.foldl (fun m b => mSet m b.id (f b)) m = m ++ l.map fun b => (b.id, f b) := by
  intro l
  induction l with
  | nil => intro m _ _; simp
  | cons b t ih =>
      intro m hn hdisj
      have hfresh : ∀ p ∈ m, p.1 ≠ b.id :=
        fun p hp => hdisj p hp b (List.mem_cons_self b t)
      have hhead : b.id ∉ t.map Block.id := by
        rw [List.map_cons] at hn
        exact (List.nodup_cons.mp hn).1
      rw [List.foldl_cons, mSet_fresh m b.id (f b) hfresh,
        ih (m ++ [(b.id, f b)]) (by rw [List.map_cons] at hn; exact (List.nodup_cons.mp hn).2) ?_]
      · rw [List.append_assoc, List.singleton_append, List.map_cons]
      · intro p hp c hc
        rcases List.mem_append.mp hp with hp1 | hp2
        · exact hdisj p hp1 c (List.mem_cons_of_mem _ hc)
        · have hpb : p = (b.id, f b) := by simpa using hp2
          rw [hpb]
          show b.id ≠ c.id
          intro hcontra
          exact hhead (hcontra ▸ List.mem_map_of_mem Block.id hc)

lemma newTempsOf_eq (blocks : List Block) (hn : (blocks.map Block.id).Nodup) :
    newTempsOf blocks = blocks.map fun b => (b.id, computeNewTemp blocks b) := by
  unfold newTempsOf
  rw [foldl_mSet_eq (computeNewTemp blocks) blocks [] hn (by intro p hp; cases hp)]
  rw [List.nil_append]

lemma find?_id_self : ∀ (l : List Block) (r : Block),
    (l.map Block.id).Nodup → r ∈ l →
    l.find? (fun b => decide (b.id = r.id)) = some r := by
  intro l
  induction l with
  | nil => intro r _ hr; cases hr
  | cons x t ih =>
      intro r hn hr
      rw [List.map_cons, List.nodup_cons] at hn
      by_cases hx : x.id = r.id
      · have hrx : r = x := by
          rcases List.mem_cons.mp hr with h1 | h2
          · exact h1
          · exact absurd (hx ▸ List.mem_map_of_mem Block.id h2) hn.1
        rw [List.find?_cons_of_pos _ (by simpa using hx), hrx]
      · have hrt : r ∈ t := by
          rcases List.mem_cons.mp hr with h1 | h2
          · exact absurd (congrArg Block.id h1.symm) hx
          · exact h2
        rw [List.find?_cons_of_neg _ (by simpa using hx)]
        exact ih r hn.2 hrt

lemma mGet_map_blocks (f : Block → ℚ) (l : List Block) (r : Block)
    (hn : (l.map Block.id).Nodup) (hr : r ∈ l) :
    mGet (l.map fun b => (b.id, f b)) r.id = some (f r) := by
  unfold mGet
  rw [List.find?_map]
  have hpred : ((fun p : String × ℚ => decide (p.1 = r.id)) ∘ fun b => (b.id, f b))
      = fun b : Block => decide (b.id = r.id) := rfl
  rw [hpred, find?_id_self l r hn hr]
  rfl

lemma mGet_newTempsOf (blocks : List Block) (r : Block)
    (hn : (blocks.map Block.id).Nodup) (hr : r ∈ blocks) :
    mGet (newTempsOf blocks) r.id = some (computeNewTemp blocks r) := by
  rw [newTempsOf_eq blocks hn]
  exact mGet_map_blocks (computeNewTemp blocks) blocks r hn hr

lemma find?_id_none (t : List Block) (k : String) (h : ∀ c ∈ t, c.id ≠ k) :
    t.find? (fun b => decide (b.id = k)) = none := by
  rw [List.find?_eq_none]
  intro x hx
  simpa using h x hx

lemma writeResult_cons_of_none (nt : List (String × ℚ)) (b : Block) (t : List Block)
    (r : Block) (hbt : ∀ c ∈ t, c.id ≠ b.id) (hget : mGet nt b.id = none) :
    writeResult nt (b :: t) r = writeResult nt t r := by
  unfold writeResult
  by_cases hid : b.id = r.id
  · rw [List.find?_cons_of_pos _ (by simpa using hid),
      find?_id_none t r.id (fun c hc => hid ▸ hbt c hc)]
    simp only [hget]
  · rw [List.find?_cons_of_neg _ (by simpa using hid)]

lemma writeResult_cons_of_noWrite (nt : List (String × ℚ)) (b : Block) (t : List Block)
    (r : Block) (hbt : ∀ c ∈ t, c.id ≠ b.id) (v : ℚ) (hget : mGet nt b.id = some v)
    (hw : shouldWrite b v = false) :
    writeResult nt (b :: t) r = writeResult nt t r := by
  unfold writeResult
  by_cases hid : b.id = r.id
  · rw [List.find?_cons_of_pos _ (by simpa using hid),
      find?_id_none t r.id (fun c hc => hid ▸ hbt c hc)]
    simp only [hget, hw]
    simp
  · rw [List.find?_cons_of_neg _ (by simpa using hid)]

lemma foldl_writeStep_eq (nt : List (String × ℚ)) :
    ∀ (l s : List Block), (l.map Block.id).Nodup →
      l.foldl (writeStep nt) s = s.map (writeResult nt l) := by
  intro l
  induction l with
  | nil =>
      intro s _
      have : writeResult nt [] = fun r => r := by
        funext r
        unfold writeResult
        rw [List.find?_nil]
      rw [List.foldl_nil, this, List.map_id']
  | cons b t ih =>
      intro s hn
      rw [List.map_cons, List.nodup_cons] at hn
      have hbt : ∀ c ∈ t, c.id ≠ b.id := by
        intro c hc hcontra
        exact hn.1 (hcontra ▸ List.mem_map_of_mem Block.id hc)
      rw [List.foldl_cons, ih (writeStep nt s b) hn.2]
      unfold writeStep
      cases hget : mGet nt b.id with
      | none =>
          dsimp only
          apply List.map_congr_left
          intro r _
          exact (writeResult_cons_of_none nt b t r hbt hget).symm
      | some v =>
          dsimp only
          by_cases hw : shouldWrite b v
          · rw [if_pos hw]
            unfold updateTemp
            rw [List.map_map]
            apply List.map_congr_left
            intro r _
            show writeResult nt t (if r.id = b.id then { r with temperature := some v } else r)
                = writeResult nt (b :: t) r
            by_cases hid : r.id = b.id
            · rw [if_pos hid]
              unfold writeResult
              rw [List.find?_cons_of_pos _ (by simpa using hid.symm)]
              dsimp only
              rw [hget]
              dsimp only
              rw [if_pos hw, find?_id_none t r.id (fun c hc h => hbt c hc (h.trans hid))]
            · rw [if_neg hid]
              unfold writeResult
              rw [List.find?_cons_of_neg _ (by simpa using fun h => hid h.symm)]
          · rw [if_neg hw]
            apply List.map_congr_left
            intro r _
            exact (writeResult_cons_of_noWrite nt b t r hbt v hget
              (Bool.eq_false_iff.mpr hw)).symm

lemma runTick_eq_tickSpecMap (store : List Block)
    (hn : (store.map Block.id).Nodup) : runTick store = tickSpecMap store := by
  unfold runTick
  by_cases hemp : store.isEmpty
  · rw [if_pos hemp]
    rw [List.isEmpty_iff] at hemp
    rw [hemp]
    rfl
  · rw [if_neg hemp, foldl_writeStep_eq (newTempsOf store) store store hn]
    unfold tickSpecMap
    apply List.map_congr_left
    intro r hr
    unfold writeResult tickBlockSpec
    rw [find?_id_self store r hn hr]
    dsimp only
    rw [mGet_newTempsOf store r hn hr]

/-- Claim C2: one tick, i.e. the per-block compute loop filling the
`newTemps` map followed by the write loop, equals the simultaneous
whole-collection map `T(t+1) = F(T(t))` applied to the snapshot: every
new temperature depends only on the snapshot, never on a value computed
in the same tick. -/
theorem claim_C2 (store : List Block) (hn : (store.map Block.id).Nodup) :
    runTick store = tickSpecMap store :=
  runTick_eq_tickSpecMap store hn

/-- Claim C2 witness: on a concrete two-block snapshot with distinct ids
the tick's compute-then-write loops and the simultaneous map agree. -/
theorem claim_C2_witness : runTick wStore2 = tickSpecMap wStore2 :=
  claim_C2 wStore2 (by decide)

/-- Claim C4: at every position of the snapshot, the tick writes the
computed temperature to the stored record exactly when it differs from
the previously read value by more than `0.1`, and otherwise leaves the
record untouched. -/
theorem claim_C4 (store : List Block) (i : ℕ) (b : Block)
    (hn : (store.map Block.id).Nodup) (hi : store[i]? = some b) :
    (runTick store)[i]? =
      some (if (0.1 : ℚ) < |readTemp b - computeNewTemp store b|
        then { b with temperature := some (computeNewTemp store b) } else b) := by
  rw [runTick_eq_tickSpecMap store hn]
  unfold tickSpecMap
  rw [List.getElem?_map, hi]
  unfold tickBlockSpec shouldWrite
  simp only [Option.map_some', decide_eq_true_eq]

/-- Claim C4 witness: in the two-block fixture the first block moves from
ambient to `26.3`, beyond the threshold, so its record is rewritten with
exactly the computed value. -/
theorem claim_C4_witness :
    (runTick wStore2)[0]? =
      some (if (0.1 : ℚ) < |readTemp w2A - computeNewTemp wStore2 w2A|
        then { w2A with temperature := some (computeNewTemp wStore2 w2A) } else w2A) :=
  claim_C4 wStore2 0 w2A (by decide) rfl

lemma upsert_pred_eq (id k : String) (payload : BlockDoc) :
    ((fun p : String × BlockDoc => decide (p.1 = k)) ∘
        fun p : String × BlockDoc => if p.1 = id then (p.1, mergeDoc p.2 payload) else p)
      = fun p : String × BlockDoc => decide (p.1 = k) := by
  funext p
  by_cases hp : p.1 = id
  · simp [Function.comp, hp]
  · simp [Function.comp, hp]

/-- Claim C7: a merge upsert writes exactly the payload's present fields
onto the record with the payload's id, creating the record when absent:
the lookup afterwards returns the merged (or fresh) document, other ids
are untouched, a payload without `temperature` leaves the stored
temperature in place, and field by field a present payload value wins
while an absent one keeps the prior value. -/
theorem claim_C7 (store : List (String × BlockDoc)) (id : String) (payload : BlockDoc) :
    docLookup (upsertMerge store id payload) id
      = some ((docLookup store id).elim payload fun old => mergeDoc old payload) ∧
    (∀ id', id' ≠ id →
      docLookup (upsertMerge store id payload) id' = docLookup store id') ∧
    (∀ old : BlockDoc, payload.temperature = none →
      (mergeDoc old payload).temperature = old.temperature) ∧
    (∀ (old : BlockDoc) (v : ℚ),
      (payload.x = some v → (mergeDoc old payload).x = some v) ∧
      (payload.x = none → (mergeDoc old payload).x = old.x) ∧
      (payload.y = some v → (mergeDoc old payload).y = some v) ∧
      (payload.y = none → (mergeDoc old payload).y = old.y) ∧
      (payload.width = some v → (mergeDoc old payload).width = some v) ∧
      (payload.width = none → (mergeDoc old payload).width = old.width) ∧
      (payload.height = some v → (mergeDoc old payload).height = some v) ∧
      (payload.height = none → (mergeDoc old payload).height = old.height) ∧
      (payload.dynamicLoad = some v → (mergeDoc old payload).dynamicLoad = some v) ∧
      (payload.dynamicLoad = none → (mergeDoc old payload).dynamicLoad = old.dynamicLoad) ∧
      (payload.temperature = some v → (mergeDoc old payload).temperature = some v)) := by
  refine ⟨?_, ?_, ?_, ?_⟩
  · cases h : docLookup store id with
    | none =>
        unfold upsertMerge
        rw [h]
        unfold docLookup at h ⊢
        rw [List.find?_append, Option.map_eq_none'.mp h]
        simp
    | some old =>
        unfold upsertMerge
        rw [h]
        obtain ⟨p, hp, hps⟩ := Option.map_eq_some'.mp h
        have hp1 : p.1 = id := by simpa using List.find?_some hp
        unfold docLookup
        rw [List.find?_map, upsert_pred_eq, hp]
        simp [hp1, hps]
  · intro id' hne
    cases h : docLookup store id with
    | none =>
        unfold upsertMerge
        rw [h]
        unfold docLookup
        rw [List.find?_append]
        have hsingle : List.find? (fun p : String × BlockDoc => decide (p.1 = id'))
            [(id, payload)] = none := by
          simp only [List.find?_cons, List.find?_nil]
          rw [decide_eq_false (fun hcontra => hne hcontra.symm)]
        rw [hsingle]
        cases store.find? fun p : String × BlockDoc => decide (p.1 = id') <;> rfl
    | some old =>
        unfold upsertMerge
        rw [h]
        unfold docLookup
        rw [List.find?_map, upsert_pred_eq]
        cases hf : store.find? fun p : String × BlockDoc => decide (p.1 = id') with
        | none => rfl
        | some q =>
            have hq1 : q.1 = id' := by simpa using List.find?_some hf
            have hfix : (if q.1 = id then (q.1, mergeDoc q.2 payload) else q) = q := by
              rw [if_neg (by rw [hq1]; exact hne)]
            simp [hfix]
  · intro old h
    simp [mergeDoc, mergeField, h]
  · intro old v
    refine ⟨?_, ?_, ?_, ?_, ?_, ?_, ?_, ?_, ?_, ?_, ?_⟩ <;>
      · intro h
        simp [mergeDoc, mergeField, h]

/-- Claim C7 witness: upserting a position-only payload onto a stored
document yields the merged document under that id, and the merge keeps
the stored temperature. -/
theorem claim_C7_witness :
    docLookup (upsertMerge wStore7 "r" wPay7) "r"
      = some ((docLookup wStore7 "r").elim wPay7 fun old => mergeDoc old wPay7) ∧
    (mergeDoc wOld7 wPay7).temperature = wOld7.temperature :=
  ⟨(claim_C7 wStore7 "r" wPay7).1, (claim_C7 wStore7 "r" wPay7).2.2.1 wOld7 rfl⟩

lemma foldl_deleteDoc_nil : ∀ (dels : List String) (s : List (String × BlockDoc)),
    (∀ p ∈ s, p.1 ∈ dels) → dels.foldl deleteDoc s = [] := by
  intro dels
  induction dels with
  | nil =>
      intro s h
      cases s with
      | nil => rfl
      | cons p t => exact absurd (h p (List.mem_cons_self p t)) (List.not_mem_nil p.1)
  | cons d ds ih =>
      intro s h
      rw [List.foldl_cons]
      apply ih
      intro p hp
      unfold deleteDoc at hp
      have hmem := List.mem_filter.mp hp
      have hne : p.1 ≠ d := by simpa using hmem.2
      rcases List.mem_cons.mp (h p hmem.1) with h1 | h2
      · exact absurd h1 hne
      · exact h2

/-- Claim C8: with no concurrent edits, clearing the canvas deletes every
record of the snapshot in one batch, leaving the empty collection: a
subsequent read returns the empty collection and no record remains. -/
theorem claim_C8 (store : List (String × BlockDoc)) :
    clearCanvas store = [] ∧ ∀ id, docLookup (clearCanvas store) id = none := by
  have hempty : clearCanvas store = [] := by
    unfold clearCanvas
    exact foldl_deleteDoc_nil (store.map Prod.fst) store
      fun p hp => List.mem_map_of_mem Prod.fst hp
  exact ⟨hempty, fun id => by rw [hempty]; rfl⟩

end ChipLab
